import Mathlib

/-
Shallow embedding of bubble_chamber_bpy/render.py and of the parts of its
driver contract that the specification describes.

Modelling choices:
- the 3D host (the bpy scene) is an explicit state: the current timeline
  frame, the list of named scene objects, and the list of material
  datablocks; object handles are object names;
- Python floats are modelled as rationals; Python int() truncation toward
  zero is pyInt; Python percent on integers matches Int.emod for a positive
  modulus;
- keyframe insertion appends an event (frame, captured value) to the
  per-object keyframe log, in emission order;
- the node-tree plumbing of get_or_create_material is abstracted to its one
  observable, the emission color it installs on the fresh material;
- the Simulation and Particle classes live outside this repository;
  everything the render loop reads from them (particles, time_passed,
  is_alive, is_dirty, position, total_charge, mass) is embedded as data,
  and driver behaviour is taken as hypotheses modelled from the spec.
-/

abbrev Vec3 := ℚ × ℚ × ℚ

structure Particle where
  position : Vec3
  total_charge : ℚ
  mass : ℚ
  is_alive : Bool
  is_dirty : Bool
  deriving DecidableEq, Repr

structure Sim where
  particles : List Particle
  time_passed : ℚ
  deriving DecidableEq, Repr

inductive KeyVal where
  | loc (v : Vec3)
  | hide (h : Bool)
  deriving DecidableEq, Repr

structure Keyframe where
  frame : ℤ
  val : KeyVal
  deriving DecidableEq, Repr

structure Material where
  mat_name : String
  emission_color : List ℚ
  deriving DecidableEq, Repr

structure PSys where
  psys_name : String
  frame_start : ℤ
  frame_end : ℤ
  particle_size : ℚ
  size_random : ℚ
  lifetime : ℚ
  gravity : ℚ
  render_type : String
  instance_object : String
  deriving DecidableEq, Repr

structure VisObj where
  name : String
  location : Vec3
  hide_render : Bool
  keyframes : List Keyframe
  materials : List ℕ
  particle_systems : List PSys
  deriving DecidableEq, Repr

structure Host where
  frame_current : ℤ
  objects : List VisObj
  materials : List Material
  deriving DecidableEq, Repr

/- Python int() truncates toward zero. -/
def pyInt (q : ℚ) : ℤ := if 0 ≤ q then ⌊q⌋ else -⌊-q⌋

/- render.py line 106: frame = int(simulation.time_passed * FPS), FPS = 30. -/
def frameOf (t : ℚ) : ℤ := pyInt (t * 30)

/- colorsys.hsv_to_rgb from the Python standard library, on rationals. -/
def hsv_to_rgb (h s v : ℚ) : Vec3 :=
  if s = 0 then (v, v, v)
  else
    let i0 : ℤ := pyInt (h * 6)
    let f : ℚ := h * 6 - i0
    let p : ℚ := v * (1 - s)
    let q : ℚ := v * (1 - s * f)
    let t : ℚ := v * (1 - s * (1 - f))
    let i : ℤ := i0 % 6
    if i = 0 then (v, t, p)
    else if i = 1 then (q, v, p)
    else if i = 2 then (p, q, v)
    else if i = 3 then (p, v, q)
    else if i = 4 then (t, p, v)
    else (v, q, p)

/- render.py line 195: hue = 0 if charge >= 0 else 0.7. -/
def hueFor (charge : ℚ) : ℚ := if 0 ≤ charge then 0 else 7/10

/- render.py line 196: saturation = abs(charge) / p.mass (unclamped). -/
def satFor (charge mass : ℚ) : ℚ := |charge| / mass

/- render.py lines 193-204. -/
def color_for_particle (charge mass : ℚ) (with_alpha : Bool) : List ℚ :=
  let rgb := hsv_to_rgb (hueFor charge) (satFor charge mass) (7/10)
  if with_alpha then [rgb.1, rgb.2.1, rgb.2.2, 1] else [rgb.1, rgb.2.1, rgb.2.2]

inductive PyErr where
  | zeroDivision
  deriving DecidableEq, Repr

/- color_for_particle under Python exception semantics: float division raises
ZeroDivisionError exactly when the divisor is zero; every other input returns
normally.  (IEEE NaN and infinities fall outside the rational model.) -/
def color_for_particle_py (charge mass : ℚ) (with_alpha : Bool) :
    Except PyErr (List ℚ) :=
  if mass = 0 then Except.error PyErr.zeroDivision
  else Except.ok (color_for_particle charge mass with_alpha)

/- bpy.context.scene.frame_set. -/
def frame_set (f : ℤ) (s : Host) : Host := { s with frame_current := f }

/- bpy.data.objects.get(name). -/
def lookupObject (s : Host) (n : String) : Option VisObj :=
  s.objects.find? (fun o => o.name = n)

def hasObj (s : Host) (n : String) : Prop := (lookupObject s n).isSome

/- Mutation through an object handle: rewrite every object carrying the
handle name. -/
def updateObject (s : Host) (n : String) (f : VisObj → VisObj) : Host :=
  { s with objects := s.objects.map (fun o => if o.name = n then f o else o) }

/- render.py lines 207-211, as a pure function of the object; the ambient
current frame is passed explicitly (spec section 9 models it as a threaded
parameter). -/
def set_visibility (frame : ℤ) (o : VisObj) (vis : Bool) : VisObj :=
  let hide := !vis
  if o.hide_render ≠ hide then
    { o with hide_render := hide,
             keyframes := o.keyframes ++ [⟨frame, KeyVal.hide hide⟩] }
  else o

/- set_visibility applied through a handle at the host current frame. -/
def set_visibility_h (n : String) (vis : Bool) (s : Host) : Host :=
  updateObject s n (fun o => set_visibility s.frame_current o vis)

/- obj.location = v. -/
def set_location (n : String) (v : Vec3) (s : Host) : Host :=
  updateObject s n (fun o => { o with location := v })

/- obj.keyframe_insert(data_path="location"): capture the current location at
the current frame. -/
def keyframe_insert_location (n : String) (s : Host) : Host :=
  updateObject s n (fun o =>
    { o with keyframes := o.keyframes ++ [⟨s.frame_current, KeyVal.loc o.location⟩] })

/- render.py lines 121-123: obj.particle_systems[0].settings.frame_end = f.
Objects produced by get_or_create_particle always carry one particle system;
on an object without one Python would raise IndexError, modelled as a no-op
since the pipeline never reaches that case. -/
def set_psys0_frame_end (f : ℤ) (o : VisObj) : VisObj :=
  match o.particle_systems with
  | [] => o
  | ps :: rest => { o with particle_systems := { ps with frame_end := f } :: rest }

/- render.py lines 214-219.  At_frame is a contextmanager whose yield is not
wrapped in try/finally: entering saves the frame and moves the timeline; if
the body returns normally the saved frame is restored; if the body raises,
the exception propagates through the yield and the restoring frame_set never
runs.  Exceptions carry the host state, since Python mutations survive an
unwinding exception. -/
def at_frame {E A : Type} (frame : ℤ) (body : Host → Except (E × Host) (A × Host))
    (s : Host) : Except (E × Host) (A × Host) :=
  let current_frame := s.frame_current
  let s1 := frame_set frame s
  match body s1 with
  | Except.ok (a, s2) => Except.ok (a, frame_set current_frame s2)
  | Except.error es => Except.error es

/- at_frame specialised to a body that cannot raise, as used at render.py
line 140. -/
def at_frame_run (frame : ℤ) (body : Host → Host) (s : Host) : Host :=
  let current_frame := s.frame_current
  let s1 := frame_set frame s
  frame_set current_frame (body s1)

/- render.py line 127. -/
def particleName (i : ℕ) : String := "Particle " ++ toString i

/- The object produced by primitive_uv_sphere_add at the particle position,
then renamed; a fresh Blender object is not render-hidden and has no
keyframes, materials or particle systems. -/
def newObj (n : String) (loc : Vec3) : VisObj :=
  { name := n, location := loc, hide_render := false,
    keyframes := [], materials := [], particle_systems := [] }

/- render.py lines 169-190: bpy.data.materials.new is called unconditionally,
so every call appends a fresh material datablock; the requested name is
always "Material Particle" and the emission node receives
color_for_particle(p).  The returned handle is the index of the new
datablock. -/
def get_or_create_material (p : Particle) (s : Host) : ℕ × Host :=
  let m : Material :=
    { mat_name := "Material Particle",
      emission_color := color_for_particle p.total_charge p.mass true }
  (s.materials.length, { s with materials := s.materials ++ [m] })

/- render.py lines 126-166.  The particle-system record carries every field
the source sets; frame_end keeps the Blender default 200 at creation. -/
def get_or_create_particle (p : Particle) (i : ℕ) (s : Host) : String × Host :=
  let n := particleName i
  match lookupObject s n with
  | some _ => (n, s)
  | none =>
    let s1 : Host := { s with objects := s.objects ++ [newObj n p.position] }
    let s2 := set_location n p.position s1
    let s3 := keyframe_insert_location n s2
    let s4 := at_frame_run 0 (set_visibility_h n false) s3
    let s5 := set_visibility_h n true s4
    let pr := get_or_create_material p s5
    let s6 := updateObject pr.2 n (fun o => { o with materials := o.materials ++ [pr.1] })
    let s7 := updateObject s6 n (fun o =>
      { o with particle_systems := o.particle_systems ++
          [{ psys_name := n ++ " Particles",
             frame_start := s6.frame_current,
             frame_end := 200,
             particle_size := 1/100,
             size_random := 1/2,
             lifetime := 1000,
             gravity := 0,
             render_type := "OBJECT",
             instance_object := "Vapor" }] })
    (n, s7)

/- render.py lines 109-123: the per-particle body of the run loop. -/
def process_particle (p : Particle) (i : ℕ) (s : Host) : Particle × Host :=
  let pr := get_or_create_particle p i s
  let s1 := pr.2
  if p.is_alive then
    let s2 := set_visibility_h pr.1 true s1
    let s3 := set_location pr.1 p.position s2
    let s4 := keyframe_insert_location pr.1 s3
    (p, s4)
  else if p.is_dirty then
    let p2 := { p with is_dirty := false }
    let s2 := set_location pr.1 p.position s1
    let s3 := keyframe_insert_location pr.1 s2
    let s4 := set_visibility_h pr.1 false s3
    let s5 := updateObject s4 pr.1 (set_psys0_frame_end s4.frame_current)
    (p2, s5)
  else
    (p, s1)

/- enumerate(simulation.particles) threaded through the host. -/
def processAll : List Particle → ℕ → Host → List Particle × Host
  | [], _, s => ([], s)
  | p :: ps, i, s =>
    let pr := process_particle p i s
    let rest := processAll ps (i + 1) pr.2
    (pr.1 :: rest.1, rest.2)

structure RState where
  sim : Sim
  host : Host
  deriving DecidableEq, Repr

/- One traversal of the loop body after simulation.step(): set the host
timeline to the frame derived from time_passed, then process every particle
in order. -/
def renderPass (s : RState) : RState :=
  let h1 := frame_set (frameOf s.sim.time_passed) s.host
  let pr := processAll s.sim.particles 0 h1
  { sim := { s.sim with particles := pr.1 }, host := pr.2 }

/- One full iteration of the while loop: the driver step (external code,
passed as a function), then the render pass. -/
def loopIter (drive : Sim → Sim) (s : RState) : RState :=
  renderPass { s with sim := drive s.sim }

/- The loop guard: any(p.is_dirty for p in simulation.particles). -/
def anyDirty (s : RState) : Bool := s.sim.particles.any (fun p => p.is_dirty)

/- render.py lines 96-123, fuelled: returns the final state when the guard
fails within the given number of iterations.  simulation.start() is driver
code and happens before the loop; its result is the initial state here. -/
def run_simulation (drive : Sim → Sim) : ℕ → RState → Option RState
  | 0, s => if anyDirty s then none else some s
  | Nat.succ fuel, s =>
      if anyDirty s then run_simulation drive fuel (loopIter drive s) else some s

/- The trajectory of loop iterations. -/
def traj (drive : Sim → Sim) (s0 : RState) (k : ℕ) : RState :=
  (loopIter drive)^[k] s0

/- The flag effect of one render pass on one particle. -/
def stepFlags (p : Particle) : Particle :=
  if !p.is_alive && p.is_dirty then { p with is_dirty := false } else p

/- Particle i at the start of iteration k. -/
def pAt (drive : Sim → Sim) (s0 : RState) (i k : ℕ) : Option Particle :=
  ((traj drive s0 k).sim.particles)[i]?

/- Particle i as the render pass of iteration k sees it, right after the
driver step of that iteration. -/
def pPost (drive : Sim → Sim) (s0 : RState) (i k : ℕ) : Option Particle :=
  ((drive (traj drive s0 k).sim).particles)[i]?

/- The finalization branch (not alive and dirty) fires for particle i during
iteration k. -/
def firesAt (drive : Sim → Sim) (s0 : RState) (i k : ℕ) : Prop :=
  ∃ q, pPost drive s0 i k = some q ∧ q.is_alive = false ∧ q.is_dirty = true

/- The visibility values recorded in an object keyframe log, in emission
order. -/
def visVals (o : VisObj) : List Bool :=
  o.keyframes.filterMap (fun k =>
    match k.val with
    | KeyVal.hide h => some h
    | KeyVal.loc _ => none)

/- The visibility log is change-gated: adjacent recorded values differ, and
the last recorded value (when one exists) is the current hide_render state. -/
def visChainOk (o : VisObj) : Prop :=
  List.Chain' (fun a b => a ≠ b) (visVals o) ∧
    (visVals o = [] ∨ (visVals o).getLast? = some o.hide_render)

/- Concrete fixtures for witnesses. -/

def hostA : Host := { frame_current := 5, objects := [], materials := [] }

def pWit : Particle :=
  { position := (0, 0, 0), total_charge := 1, mass := 1,
    is_alive := true, is_dirty := true }

/- A driver that kills every live particle and marks it dirty at the kill
step, leaving dead particles untouched and time frozen. -/
def witDrive (sm : Sim) : Sim :=
  { sm with particles := sm.particles.map (fun p =>
      if p.is_alive then { p with is_alive := false, is_dirty := true } else p) }

def s0Wit : RState :=
  { sim := { particles := [pWit], time_passed := 0 }, host := hostA }

/- Frame and object bookkeeping lemmas. -/

@[simp]
theorem updateObject_frame (s : Host) (n : String) (f : VisObj → VisObj) :
    (updateObject s n f).frame_current = s.frame_current := rfl

@[simp]
theorem updateObject_materials (s : Host) (n : String) (f : VisObj → VisObj) :
    (updateObject s n f).materials = s.materials := rfl

@[simp]
theorem set_visibility_h_frame (n : String) (v : Bool) (s : Host) :
    (set_visibility_h n v s).frame_current = s.frame_current := rfl

@[simp]
theorem set_location_frame (n : String) (v : Vec3) (s : Host) :
    (set_location n v s).frame_current = s.frame_current := rfl

@[simp]
theorem keyframe_insert_location_frame (n : String) (s : Host) :
    (keyframe_insert_location n s).frame_current = s.frame_current := rfl

@[simp]
theorem at_frame_run_frame (f : ℤ) (b : Host → Host) (s : Host) :
    (at_frame_run f b s).frame_current = s.frame_current := rfl

@[simp]
theorem get_or_create_material_frame (p : Particle) (s : Host) :
    ((get_or_create_material p s).2).frame_current = s.frame_current := rfl

@[simp]
theorem get_or_create_material_objects (p : Particle) (s : Host) :
    ((get_or_create_material p s).2).objects = s.objects := rfl

theorem get_or_create_particle_frame (p : Particle) (i : ℕ) (s : Host) :
    ((get_or_create_particle p i s).2).frame_current = s.frame_current := by
  simp only [get_or_create_particle]
  cases h : lookupObject s (particleName i) <;> rfl

theorem process_particle_frame (p : Particle) (i : ℕ) (s : Host) :
    ((process_particle p i s).2).frame_current = s.frame_current := by
  unfold process_particle
  by_cases ha : p.is_alive <;> by_cases hd : p.is_dirty <;>
    simp [ha, hd, set_visibility_h, set_location, keyframe_insert_location,
      get_or_create_particle_frame]

theorem processAll_frame (ps : List Particle) (i : ℕ) (s : Host) :
    ((processAll ps i s).2).frame_current = s.frame_current := by
  induction ps generalizing i s with
  | nil => rfl
  | cons p ps ih =>
      simp [processAll, ih, process_particle_frame]

/- pyInt lemmas. -/

theorem pyInt_of_nonneg {q : ℚ} (h : 0 ≤ q) : pyInt q = ⌊q⌋ := if_pos h

theorem pyInt_mono {a b : ℚ} (h : a ≤ b) : pyInt a ≤ pyInt b := by
  unfold pyInt
  by_cases ha : 0 ≤ a
  · rw [if_pos ha, if_pos (le_trans ha h)]
    exact Int.floor_mono h
  · rw [if_neg ha]
    push_neg at ha
    by_cases hb : 0 ≤ b
    · rw [if_pos hb]
      have h1 : 0 ≤ ⌊-a⌋ := Int.le_floor.mpr (by push_cast; linarith)
      have h2 : 0 ≤ ⌊b⌋ := Int.le_floor.mpr (by push_cast; linarith)
      omega
    · rw [if_neg hb]
      have h3 : ⌊-b⌋ ≤ ⌊-a⌋ := Int.floor_mono (by linarith)
      omega

/-- C5: the frame computed each step is int(time_passed * 30), which equals
floor(time_passed * 30) for the non-negative times the simulation produces;
the mapping is monotone, frame 0 is 0, and each render pass sets the host
timeline to exactly this frame. -/
theorem C5_frame_mapping :
    (∀ t : ℚ, 0 ≤ t → frameOf t = ⌊t * 30⌋) ∧
    (∀ a b : ℚ, a ≤ b → frameOf a ≤ frameOf b) ∧
    frameOf 0 = 0 ∧
    (∀ s : RState, (renderPass s).host.frame_current = frameOf s.sim.time_passed) := by
  refine ⟨fun t ht => pyInt_of_nonneg (by positivity), ?_, ?_, ?_⟩
  · intro a b h
    exact pyInt_mono (by linarith)
  · norm_num [frameOf, pyInt]
  · intro s
    simp [renderPass, processAll_frame, frame_set]

/-- C5 witness: the frame map evaluated at the concrete times of the spec
example, with the hypotheses discharged there. -/
theorem C5_frame_mapping_witness :
    ((0 : ℚ) ≤ 1/10 ∧ frameOf (1/10) = ⌊(1/10 : ℚ) * 30⌋) ∧
    ((1/10 : ℚ) ≤ 1/2 ∧ frameOf (1/10) ≤ frameOf (1/2)) :=
  ⟨⟨by norm_num, C5_frame_mapping.1 (1/10) (by norm_num)⟩,
   ⟨by norm_num, C5_frame_mapping.2.1 (1/10) (1/2) (by norm_num)⟩⟩

/-- C6: color_for_particle is the pure map charge/mass to HSV to RGB with
hue 0 for non-negative charge and 7/10 otherwise, saturation the unclamped
quotient, value 7/10, and alpha 1 appended exactly when requested; at charge
1 mass 1 it yields hue 0 saturation 1, at charge -1 mass 2 hue 7/10
saturation 1/2, with the stated RGB results. -/
theorem C6_color_derivation :
    hueFor 1 = 0 ∧ satFor 1 1 = 1 ∧
    hueFor (-1) = 7/10 ∧ satFor (-1) 2 = 1/2 ∧
    color_for_particle 1 1 true = [7/10, 0, 0, 1] ∧
    color_for_particle (-1) 2 true = [21/50, 7/20, 7/10, 1] ∧
    (∀ c m : ℚ, color_for_particle c m true = color_for_particle c m false ++ [1]) := by
  refine ⟨by norm_num [hueFor], by norm_num [satFor], by norm_num [hueFor],
    by norm_num [satFor], ?_, ?_, ?_⟩
  · norm_num [color_for_particle, hsv_to_rgb, hueFor, satFor, pyInt]
  · norm_num [color_for_particle, hsv_to_rgb, hueFor, satFor, pyInt]
  · intro c m
    simp [color_for_particle]

/-- C7: the code does not fail fast on a non-positive mass: with charge 1 and
mass -1 (finite, mass below zero) color_for_particle returns an out-of-range
color instead of raising, and only the exact zero mass raises through
Python division. -/
theorem C7_no_fail_fast_on_nonpositive_mass :
    color_for_particle_py 1 (-1) true = Except.ok [7/10, 7/5, 7/5, 1] ∧
    color_for_particle_py 1 0 true = Except.error PyErr.zeroDivision := by
  constructor
  · norm_num [color_for_particle_py, color_for_particle, hsv_to_rgb, hueFor, satFor, pyInt]
  · norm_num [color_for_particle_py]

/-- C1: at_frame saves and restores the timeline around a body that returns
normally, but a raising body propagates through the unprotected yield and
the timeline is left at the excursion frame, not restored to the saved
one. -/
theorem C1_at_frame_restore :
    (at_frame 3 (fun h => (Except.ok ((), h) : Except (Unit × Host) (Unit × Host))) hostA =
      Except.ok ((), hostA)) ∧
    (at_frame 3 (fun h => (Except.error ((), h) : Except (Unit × Host) (Unit × Host))) hostA =
      Except.error ((), { frame_current := 3, objects := [], materials := [] })) := by
  constructor <;> rfl

/- Name preservation of the per-object updates. -/

@[simp]
theorem set_visibility_name (fr : ℤ) (o : VisObj) (v : Bool) :
    (set_visibility fr o v).name = o.name := by
  simp only [set_visibility]
  split <;> rfl

@[simp]
theorem set_psys0_frame_end_name (f : ℤ) (o : VisObj) :
    (set_psys0_frame_end f o).name = o.name := by
  unfold set_psys0_frame_end
  split <;> rfl

/- Lookup after an update through a name-preserving object map. -/

theorem lookupObject_updateObject (s : Host) (m n : String) (f : VisObj → VisObj)
    (hf : ∀ o, (f o).name = o.name) :
    lookupObject (updateObject s m f) n =
      Option.map (fun o => if o.name = m then f o else o) (lookupObject s n) := by
  unfold lookupObject updateObject
  rw [List.find?_map]
  have hp : ((fun o : VisObj => decide (o.name = n)) ∘
      (fun o => if o.name = m then f o else o)) = fun o : VisObj => decide (o.name = n) := by
    funext o
    by_cases h : o.name = m <;> simp [h, hf]
  rw [hp]

theorem lookupObject_frame_set (f : ℤ) (s : Host) (n : String) :
    lookupObject (frame_set f s) n = lookupObject s n := rfl

theorem visVals_emit (frame : ℤ) (o : VisObj) (b : Bool) :
    visVals { o with hide_render := b,
                     keyframes := o.keyframes ++ [⟨frame, KeyVal.hide b⟩] } =
      visVals o ++ [b] := by
  simp [visVals, List.filterMap_append]

/-- C3: set_visibility emits a visibility keyframe exactly when the requested
visibility differs from the recorded hide_render state, an unchanged request
is a complete no-op, and the change-gating preserves the invariant that no
two adjacent recorded visibility values coincide. -/
theorem C3_visibility_dedup (frame : ℤ) (o : VisObj) (vis : Bool) :
    ((!vis) = o.hide_render → set_visibility frame o vis = o) ∧
    ((!vis) ≠ o.hide_render →
      set_visibility frame o vis =
        { o with hide_render := !vis,
                 keyframes := o.keyframes ++ [⟨frame, KeyVal.hide (!vis)⟩] }) ∧
    (visChainOk o → visChainOk (set_visibility frame o vis)) := by
  refine ⟨?_, ?_, ?_⟩
  · intro h
    simp only [set_visibility]
    rw [if_neg]
    simp [h]
  · intro h
    simp only [set_visibility]
    rw [if_pos]
    exact fun hc => h hc.symm
  · rintro ⟨hchain, hlast⟩
    by_cases h : (!vis) = o.hide_render
    · simp only [set_visibility]
      rw [if_neg (by simp [h])]
      exact ⟨hchain, hlast⟩
    · have he : set_visibility frame o vis =
          { o with hide_render := !vis,
                   keyframes := o.keyframes ++ [⟨frame, KeyVal.hide (!vis)⟩] } := by
        simp only [set_visibility]
        rw [if_pos]
        exact fun hc => h hc.symm
      rw [he]
      constructor
      · rw [visVals_emit]
        rw [List.chain'_append]
        refine ⟨hchain, List.chain'_singleton _, ?_⟩
        intro x hx y hy
        rcases hlast with h0 | h0
        · simp [h0] at hx
        · rw [h0] at hx
          simp at hx hy
          subst hx
          intro hxy
          apply h
          rw [hy, Bool.not_not]
          exact hxy.symm
      · right
        rw [visVals_emit]
        simp

/-- C3 witness: on a freshly created object a request for the already-current
visibility is a no-op, and the invariant survives an emitting call. -/
theorem C3_visibility_dedup_witness :
    ((!true) = (newObj (particleName 0) (0, 0, 0)).hide_render ∧
      set_visibility 7 (newObj (particleName 0) (0, 0, 0)) true =
        newObj (particleName 0) (0, 0, 0)) ∧
    (visChainOk (newObj (particleName 0) (0, 0, 0)) ∧
      visChainOk (set_visibility 7 (newObj (particleName 0) (0, 0, 0)) false)) :=
  ⟨⟨by simp [newObj], (C3_visibility_dedup 7 _ true).1 (by simp [newObj])⟩,
   ⟨⟨by simp [visVals, newObj], by simp [visVals, newObj]⟩,
    (C3_visibility_dedup 7 _ false).2.2 ⟨by simp [visVals, newObj], by simp [visVals, newObj]⟩⟩⟩

/- Characterization of get_or_create_particle. -/

theorem lookupObject_none_iff (s : Host) (n : String) :
    lookupObject s n = none ↔ ∀ a ∈ s.objects, a.name ≠ n := by
  simp [lookupObject, List.find?_eq_none]

theorem updateObject_concat (fc : ℤ) (objs : List VisObj) (mats : List Material)
    (n : String) (f : VisObj → VisObj) (o : VisObj)
    (hmem : ∀ a ∈ objs, a.name ≠ n) (ho : o.name = n) :
    updateObject ⟨fc, objs ++ [o], mats⟩ n f = ⟨fc, objs ++ [f o], mats⟩ := by
  unfold updateObject
  have h1 : ∀ a ∈ objs, (if a.name = n then f a else a) = a :=
    fun a ha => if_neg (hmem a ha)
  simp only [List.map_append, List.map_cons, List.map_nil, ho, if_pos]
  rw [List.map_congr_left h1]
  simp

theorem gocp_noop (p : Particle) (i : ℕ) (s : Host) (o : VisObj)
    (h : lookupObject s (particleName i) = some o) :
    get_or_create_particle p i s = (particleName i, s) := by
  simp only [get_or_create_particle, h]

theorem gocp_fst (p : Particle) (i : ℕ) (s : Host) :
    (get_or_create_particle p i s).1 = particleName i := by
  simp only [get_or_create_particle]
  cases h : lookupObject s (particleName i) <;> rfl

theorem gocp_create (p : Particle) (i : ℕ) (s : Host)
    (h : lookupObject s (particleName i) = none) :
    (get_or_create_particle p i s).2 =
      { frame_current := s.frame_current,
        objects := s.objects ++
          [{ name := particleName i,
             location := p.position,
             hide_render := false,
             keyframes := [⟨s.frame_current, KeyVal.loc p.position⟩,
                           ⟨0, KeyVal.hide true⟩,
                           ⟨s.frame_current, KeyVal.hide false⟩],
             materials := [s.materials.length],
             particle_systems := [{ psys_name := particleName i ++ " Particles",
                                    frame_start := s.frame_current,
                                    frame_end := 200,
                                    particle_size := 1/100,
                                    size_random := 1/2,
                                    lifetime := 1000,
                                    gravity := 0,
                                    render_type := "OBJECT",
                                    instance_object := "Vapor" }] }],
        materials := s.materials ++
          [{ mat_name := "Material Particle",
             emission_color := color_for_particle p.total_charge p.mass true }] } := by
  have hmem : ∀ a ∈ s.objects, a.name ≠ particleName i := by
    rw [lookupObject, List.find?_eq_none] at h
    intro a ha
    simpa using h a ha
  obtain ⟨fc, objs, mats⟩ := s
  dsimp only at hmem
  simp only [get_or_create_particle, h]
  have e2 : set_location (particleName i) p.position
      (⟨fc, objs ++ [newObj (particleName i) p.position], mats⟩ : Host) =
      ⟨fc, objs ++ [newObj (particleName i) p.position], mats⟩ := by
    simp only [set_location]
    rw [updateObject_concat _ _ _ _ _ _ hmem rfl]
    rfl
  have e3 : keyframe_insert_location (particleName i)
      (⟨fc, objs ++ [newObj (particleName i) p.position], mats⟩ : Host) =
      ⟨fc, objs ++
        [{ name := particleName i, location := p.position, hide_render := false,
           keyframes := [⟨fc, KeyVal.loc p.position⟩],
           materials := [], particle_systems := [] }], mats⟩ := by
    simp only [keyframe_insert_location]
    rw [updateObject_concat _ _ _ _ _ _ hmem rfl]
    rfl
  have e4 : at_frame_run 0 (set_visibility_h (particleName i) false)
      (⟨fc, objs ++
        [{ name := particleName i, location := p.position, hide_render := false,
           keyframes := [⟨fc, KeyVal.loc p.position⟩],
           materials := [], particle_systems := [] }], mats⟩ : Host) =
      ⟨fc, objs ++
        [{ name := particleName i, location := p.position, hide_render := true,
           keyframes := [⟨fc, KeyVal.loc p.position⟩, ⟨0, KeyVal.hide true⟩],
           materials := [], particle_systems := [] }], mats⟩ := by
    simp only [at_frame_run, set_visibility_h, frame_set]
    rw [updateObject_concat _ _ _ _ _ _ hmem rfl]
    rfl
  have e5 : set_visibility_h (particleName i) true
      (⟨fc, objs ++
        [{ name := particleName i, location := p.position, hide_render := true,
           keyframes := [⟨fc, KeyVal.loc p.position⟩, ⟨0, KeyVal.hide true⟩],
           materials := [], particle_systems := [] }], mats⟩ : Host) =
      ⟨fc, objs ++
        [{ name := particleName i, location := p.position, hide_render := false,
           keyframes := [⟨fc, KeyVal.loc p.position⟩, ⟨0, KeyVal.hide true⟩,
                         ⟨fc, KeyVal.hide false⟩],
           materials := [], particle_systems := [] }], mats⟩ := by
    simp only [set_visibility_h]
    rw [updateObject_concat _ _ _ _ _ _ hmem rfl]
    rfl
  rw [e2, e3, e4, e5]
  simp only [get_or_create_material]
  rw [updateObject_concat _ _ _ _ _ _ hmem rfl]
  rw [updateObject_concat _ _ _ _ _ _ hmem rfl]
  rfl

theorem lookupObject_concat_self (fc : ℤ) (objs : List VisObj) (mats : List Material)
    (o : VisObj) (n : String)
    (hmem : ∀ a ∈ objs, a.name ≠ n) (ho : o.name = n) :
    lookupObject ⟨fc, objs ++ [o], mats⟩ n = some o := by
  unfold lookupObject
  rw [List.find?_append]
  have h0 : objs.find? (fun a => a.name = n) = none :=
    List.find?_eq_none.mpr (fun a ha => by simpa using hmem a ha)
  rw [h0]
  simp [List.find?_cons, ho]

/-- C8: on first reference to an index the pipeline creates exactly one
object at the particle position whose keyframe log is precisely a location
keyframe at the current frame, an invisible keyframe at frame 0 and a
visible keyframe back at the current frame, leaving the timeline restored
and the object count increased by one. -/
theorem C8_first_creation (p : Particle) (i : ℕ) (s : Host)
    (h : lookupObject s (particleName i) = none) :
    ∃ o, lookupObject ((get_or_create_particle p i s).2) (particleName i) = some o ∧
      o.location = p.position ∧
      o.keyframes = [⟨s.frame_current, KeyVal.loc p.position⟩,
                     ⟨0, KeyVal.hide true⟩,
                     ⟨s.frame_current, KeyVal.hide false⟩] ∧
      o.hide_render = false ∧
      visVals o = [true, false] ∧
      ((get_or_create_particle p i s).2).objects.length = s.objects.length + 1 ∧
      ((get_or_create_particle p i s).2).frame_current = s.frame_current := by
  have hmem : ∀ a ∈ s.objects, a.name ≠ particleName i := by
    rw [lookupObject, List.find?_eq_none] at h
    intro a ha
    simpa using h a ha
  rw [gocp_create p i s h]
  refine ⟨_, lookupObject_concat_self _ _ _ _ _ hmem rfl, rfl, rfl, rfl, rfl, ?_, rfl⟩
  simp

/-- C8 witness: first creation evaluated on an empty host at frame 5. -/
theorem C8_first_creation_witness :
    lookupObject hostA (particleName 0) = none ∧
    (∃ o, lookupObject ((get_or_create_particle pWit 0 hostA).2) (particleName 0) = some o ∧
      o.location = pWit.position ∧
      o.keyframes = [⟨hostA.frame_current, KeyVal.loc pWit.position⟩,
                     ⟨0, KeyVal.hide true⟩,
                     ⟨hostA.frame_current, KeyVal.hide false⟩] ∧
      o.hide_render = false ∧
      visVals o = [true, false] ∧
      ((get_or_create_particle pWit 0 hostA).2).objects.length = hostA.objects.length + 1 ∧
      ((get_or_create_particle pWit 0 hostA).2).frame_current = hostA.frame_current) :=
  ⟨rfl, C8_first_creation pWit 0 hostA rfl⟩

/-- C4: get_or_create_particle always hands back the deterministic name for
the index, is the identity on a host that already carries the object, always
leaves the object present, is idempotent on its own result even for a
different particle argument, and creates exactly one object when none
existed. -/
theorem C4_idempotent_materialization (p q : Particle) (i : ℕ) (s : Host) :
    (get_or_create_particle p i s).1 = particleName i ∧
    (∀ o, lookupObject s (particleName i) = some o →
      get_or_create_particle p i s = (particleName i, s)) ∧
    (lookupObject ((get_or_create_particle p i s).2) (particleName i)).isSome = true ∧
    get_or_create_particle q i ((get_or_create_particle p i s).2) =
      (particleName i, (get_or_create_particle p i s).2) ∧
    (lookupObject s (particleName i) = none →
      ((get_or_create_particle p i s).2).objects.length = s.objects.length + 1) := by
  have hsome : (lookupObject ((get_or_create_particle p i s).2) (particleName i)).isSome = true := by
    cases h : lookupObject s (particleName i) with
    | some o =>
        rw [gocp_noop p i s o h]
        simp [h]
    | none =>
        obtain ⟨o, ho, -⟩ := C8_first_creation p i s h
        simp [ho]
  refine ⟨gocp_fst p i s, fun o ho => gocp_noop p i s o ho, hsome, ?_, ?_⟩
  · obtain ⟨o, ho⟩ := Option.isSome_iff_exists.mp hsome
    exact gocp_noop q i _ o ho
  · intro h
    rw [gocp_create p i s h]
    simp

/-- C4 witness: the second call on the freshly created host is the identity,
and creation added exactly one object. -/
theorem C4_idempotent_materialization_witness :
    get_or_create_particle pWit 0 ((get_or_create_particle pWit 0 hostA).2) =
      (particleName 0, (get_or_create_particle pWit 0 hostA).2) ∧
    (lookupObject hostA (particleName 0) = none ∧
      ((get_or_create_particle pWit 0 hostA).2).objects.length = hostA.objects.length + 1) :=
  ⟨(C4_idempotent_materialization pWit pWit 0 hostA).2.2.2.1,
   rfl, (C4_idempotent_materialization pWit pWit 0 hostA).2.2.2.2 rfl⟩

/-- C10: get_or_create_material never looks anything up: on every host it
returns a handle distinct from every existing material index and appends one
fresh datablock requested under the name Material Particle with the emission
color derived from the given particle, and a newly created particle object
references exactly that fresh material. -/
theorem C10_material_always_fresh (p : Particle) (s : Host) :
    (get_or_create_material p s).1 = s.materials.length ∧
    ((get_or_create_material p s).2).materials =
      s.materials ++ [{ mat_name := "Material Particle",
                        emission_color := color_for_particle p.total_charge p.mass true }] ∧
    ((get_or_create_material p s).2).objects = s.objects ∧
    (∀ j, j < s.materials.length → (get_or_create_material p s).1 ≠ j) ∧
    (∀ i, lookupObject s (particleName i) = none →
      ∃ o, lookupObject ((get_or_create_particle p i s).2) (particleName i) = some o ∧
        o.materials = [s.materials.length] ∧
        ((get_or_create_particle p i s).2).materials[s.materials.length]? =
          some { mat_name := "Material Particle",
                 emission_color := color_for_particle p.total_charge p.mass true }) := by
  refine ⟨rfl, rfl, rfl, ?_, ?_⟩
  · intro j hj
    simp only [get_or_create_material]
    omega
  · intro i h
    have hmem : ∀ a ∈ s.objects, a.name ≠ particleName i := by
      rw [lookupObject, List.find?_eq_none] at h
      intro a ha
      simpa using h a ha
    rw [gocp_create p i s h]
    refine ⟨_, lookupObject_concat_self _ _ _ _ _ hmem rfl, rfl, ?_⟩
    simp [List.getElem?_concat_length]

/-- C10 witness: on the empty host the fresh material gets index 0 and the
created particle object references it. -/
theorem C10_material_always_fresh_witness :
    (get_or_create_material pWit hostA).1 = hostA.materials.length ∧
    lookupObject hostA (particleName 0) = none ∧
    (∃ o, lookupObject ((get_or_create_particle pWit 0 hostA).2) (particleName 0) = some o ∧
      o.materials = [hostA.materials.length] ∧
      ((get_or_create_particle pWit 0 hostA).2).materials[hostA.materials.length]? =
        some { mat_name := "Material Particle",
               emission_color := color_for_particle pWit.total_charge pWit.mass true }) :=
  ⟨(C10_material_always_fresh pWit hostA).1, rfl,
   (C10_material_always_fresh pWit hostA).2.2.2.2 0 rfl⟩

theorem process_particle_fst (p : Particle) (i : ℕ) (s : Host) :
    (process_particle p i s).1 = stepFlags p := by
  unfold process_particle stepFlags
  by_cases ha : p.is_alive <;> by_cases hd : p.is_dirty <;> simp [ha, hd]

theorem processAll_fst (ps : List Particle) (i : ℕ) (s : Host) :
    (processAll ps i s).1 = ps.map stepFlags := by
  induction ps generalizing i s with
  | nil => rfl
  | cons p ps ih => simp [processAll, process_particle_fst, ih]

theorem loopIter_particles (drive : Sim → Sim) (s : RState) :
    (loopIter drive s).sim.particles = ((drive s.sim).particles).map stepFlags := by
  unfold loopIter renderPass
  dsimp only
  rw [processAll_fst]

theorem pAt_succ (drive : Sim → Sim) (s0 : RState) (i k : ℕ) :
    pAt drive s0 i (k + 1) = Option.map stepFlags (pPost drive s0 i k) := by
  unfold pAt pPost traj
  rw [Function.iterate_succ_apply', loopIter_particles, List.getElem?_map]

theorem hasObj_frame_set (f : ℤ) (s : Host) (n : String) :
    hasObj (frame_set f s) n ↔ hasObj s n := Iff.rfl

theorem hasObj_updateObject (s : Host) (m n : String) (f : VisObj → VisObj)
    (hf : ∀ o, (f o).name = o.name) :
    hasObj (updateObject s m f) n ↔ hasObj s n := by
  unfold hasObj
  rw [lookupObject_updateObject s m n f hf]
  cases lookupObject s n <;> simp

theorem hasObj_set_visibility_h (m : String) (v : Bool) (s : Host) (n : String) :
    hasObj (set_visibility_h m v s) n ↔ hasObj s n :=
  hasObj_updateObject s m n _ (fun o => set_visibility_name _ o v)

theorem hasObj_set_location (m : String) (v : Vec3) (s : Host) (n : String) :
    hasObj (set_location m v s) n ↔ hasObj s n :=
  hasObj_updateObject s m n _ (fun _ => rfl)

theorem hasObj_keyframe_insert_location (m : String) (s : Host) (n : String) :
    hasObj (keyframe_insert_location m s) n ↔ hasObj s n :=
  hasObj_updateObject s m n _ (fun _ => rfl)

theorem hasObj_psys_end (m : String) (f : ℤ) (s : Host) (n : String) :
    hasObj (updateObject s m (set_psys0_frame_end f)) n ↔ hasObj s n :=
  hasObj_updateObject s m n _ (fun o => set_psys0_frame_end_name f o)

theorem hasObj_at_frame_run_vis (fr : ℤ) (m : String) (v : Bool) (s : Host) (n : String) :
    hasObj (at_frame_run fr (set_visibility_h m v) s) n ↔ hasObj s n := by
  unfold at_frame_run
  exact hasObj_set_visibility_h m v _ n

theorem hasObj_gocm (p : Particle) (s : Host) (n : String) :
    hasObj ((get_or_create_material p s).2) n ↔ hasObj s n := Iff.rfl

theorem hasObj_gocp (p : Particle) (i : ℕ) (s : Host) (n : String) (h : hasObj s n) :
    hasObj ((get_or_create_particle p i s).2) n := by
  cases hl : lookupObject s (particleName i) with
  | some o =>
      rw [gocp_noop p i s o hl]
      exact h
  | none =>
      rw [gocp_create p i s hl]
      unfold hasObj lookupObject at h ⊢
      dsimp only
      rw [List.find?_append]
      obtain ⟨a, ha⟩ := Option.isSome_iff_exists.mp h
      simp [ha]

theorem hasObj_gocp_self (p : Particle) (i : ℕ) (s : Host) :
    hasObj ((get_or_create_particle p i s).2) (particleName i) := by
  cases hl : lookupObject s (particleName i) with
  | some o =>
      rw [gocp_noop p i s o hl]
      unfold hasObj
      simp [hl]
  | none =>
      have hmem : ∀ a ∈ s.objects, a.name ≠ particleName i := by
        rw [lookupObject, List.find?_eq_none] at hl
        intro a ha
        simpa using hl a ha
      rw [gocp_create p i s hl]
      unfold hasObj
      rw [lookupObject_concat_self _ _ _ _ _ hmem rfl]
      rfl

theorem hasObj_process (p : Particle) (i : ℕ) (s : Host) (n : String) (h : hasObj s n) :
    hasObj ((process_particle p i s).2) n := by
  have h1 : hasObj ((get_or_create_particle p i s).2) n := hasObj_gocp p i s n h
  unfold process_particle
  by_cases ha : p.is_alive <;> by_cases hd : p.is_dirty <;>
    simp [ha, hd, hasObj_set_visibility_h, hasObj_set_location,
      hasObj_keyframe_insert_location, hasObj_psys_end, gocp_fst, h1]

theorem hasObj_process_self (p : Particle) (i : ℕ) (s : Host) :
    hasObj ((process_particle p i s).2) (particleName i) := by
  have h1 := hasObj_gocp_self p i s
  unfold process_particle
  by_cases ha : p.is_alive <;> by_cases hd : p.is_dirty <;>
    simp [ha, hd, hasObj_set_visibility_h, hasObj_set_location,
      hasObj_keyframe_insert_location, hasObj_psys_end, gocp_fst, h1]

theorem hasObj_processAll (ps : List Particle) (i : ℕ) (s : Host) (n : String)
    (h : hasObj s n) : hasObj ((processAll ps i s).2) n := by
  induction ps generalizing i s with
  | nil => exact h
  | cons p ps ih =>
      simp only [processAll]
      exact ih (i + 1) _ (hasObj_process p i s n h)

theorem hasObj_processAll_idx (ps : List Particle) :
    ∀ (j i : ℕ) (s : Host), j < ps.length →
      hasObj ((processAll ps i s).2) (particleName (i + j)) := by
  induction ps with
  | nil =>
      intro j i s h
      simp at h
  | cons p ps ih =>
      intro j i s hj
      cases j with
      | zero =>
          simpa using hasObj_processAll ps (i + 1) _ _ (hasObj_process_self p i s)
      | succ j =>
          have harith : i + (j + 1) = (i + 1) + j := by omega
          simp only [processAll]
          rw [harith]
          exact ih j (i + 1) (process_particle p i s).2
            (by simp only [List.length_cons] at hj; omega)

theorem hasObj_loopIter (drive : Sim → Sim) (s : RState) (n : String)
    (h : hasObj s.host n) : hasObj (loopIter drive s).host n := by
  unfold loopIter renderPass
  dsimp only
  exact hasObj_processAll _ 0 _ n h

theorem hasObj_loopIter_idx (drive : Sim → Sim) (s : RState) (i : ℕ)
    (hi : i < (drive s.sim).particles.length) :
    hasObj (loopIter drive s).host (particleName i) := by
  unfold loopIter renderPass
  dsimp only
  simpa using hasObj_processAll_idx _ i 0 _ (by simpa using hi)

theorem process_finalized_noop (p : Particle) (i : ℕ) (s : Host)
    (ha : p.is_alive = false) (hd : p.is_dirty = false)
    (h : (lookupObject s (particleName i)).isSome = true) :
    process_particle p i s = (p, s) := by
  obtain ⟨o, ho⟩ := Option.isSome_iff_exists.mp h
  simp [process_particle, gocp_noop p i s o ho, ha, hd]

theorem stepFlags_alive (p : Particle) : (stepFlags p).is_alive = p.is_alive := by
  unfold stepFlags
  split <;> rfl

theorem stepFlags_of_alive (p : Particle) (h : p.is_alive = true) : stepFlags p = p := by
  unfold stepFlags
  simp [h]

theorem stepFlags_of_clean (p : Particle) (h : p.is_dirty = false) : stepFlags p = p := by
  unfold stepFlags
  simp [h]

theorem stepFlags_dead_clean (p : Particle) (ha : p.is_alive = false) :
    (stepFlags p).is_dirty = false := by
  unfold stepFlags
  cases hd : p.is_dirty <;> simp [ha, hd]

theorem traj_succ (drive : Sim → Sim) (s0 : RState) (k : ℕ) :
    traj drive s0 (k + 1) = loopIter drive (traj drive s0 k) :=
  Function.iterate_succ_apply' _ _ _

theorem traj_len (drive : Sim → Sim)
    (Hlen : ∀ sm : Sim, ((drive sm).particles).length = sm.particles.length)
    (s0 : RState) : ∀ k, (traj drive s0 k).sim.particles.length = s0.sim.particles.length := by
  intro k
  induction k with
  | zero => rfl
  | succ k ih =>
      rw [traj_succ, loopIter_particles, List.length_map, Hlen]
      exact ih

theorem deadclean_step (drive : Sim → Sim)
    (Hdead : ∀ (sm : Sim) (j : ℕ) (q : Particle), sm.particles[j]? = some q →
      q.is_alive = false → ∃ q2, ((drive sm).particles)[j]? = some q2 ∧
        q2.is_alive = false ∧ (q.is_dirty = false → q2.is_dirty = false))
    (s0 : RState) (i k : ℕ) (q : Particle)
    (hq : pAt drive s0 i k = some q) (ha : q.is_alive = false) (hd : q.is_dirty = false) :
    ∃ r, pPost drive s0 i k = some r ∧ r.is_alive = false ∧ r.is_dirty = false := by
  obtain ⟨q2, h2, ha2, hd2⟩ := Hdead (traj drive s0 k).sim i q hq ha
  exact ⟨q2, h2, ha2, hd2 hd⟩

theorem deadclean_next (drive : Sim → Sim)
    (Hdead : ∀ (sm : Sim) (j : ℕ) (q : Particle), sm.particles[j]? = some q →
      q.is_alive = false → ∃ q2, ((drive sm).particles)[j]? = some q2 ∧
        q2.is_alive = false ∧ (q.is_dirty = false → q2.is_dirty = false))
    (s0 : RState) (i k : ℕ) (q : Particle)
    (hq : pAt drive s0 i k = some q) (ha : q.is_alive = false) (hd : q.is_dirty = false) :
    ∃ r, pAt drive s0 i (k + 1) = some r ∧ r.is_alive = false ∧ r.is_dirty = false := by
  obtain ⟨r, hr, har, hdr⟩ := deadclean_step drive Hdead s0 i k q hq ha hd
  refine ⟨r, ?_, har, hdr⟩
  rw [pAt_succ, hr]
  simp [stepFlags_of_clean r hdr]

theorem deadclean_forever (drive : Sim → Sim)
    (Hdead : ∀ (sm : Sim) (j : ℕ) (q : Particle), sm.particles[j]? = some q →
      q.is_alive = false → ∃ q2, ((drive sm).particles)[j]? = some q2 ∧
        q2.is_alive = false ∧ (q.is_dirty = false → q2.is_dirty = false))
    (s0 : RState) (i k : ℕ) (q : Particle)
    (hq : pAt drive s0 i k = some q) (ha : q.is_alive = false) (hd : q.is_dirty = false) :
    ∀ m, k ≤ m → ∃ r, pAt drive s0 i m = some r ∧ r.is_alive = false ∧ r.is_dirty = false := by
  intro m hm
  induction m, hm using Nat.le_induction with
  | base => exact ⟨q, hq, ha, hd⟩
  | succ n hn ih =>
      obtain ⟨r, hr, har, hdr⟩ := ih
      exact deadclean_next drive Hdead s0 i n r hr har hdr

theorem deadclean_forever_post (drive : Sim → Sim)
    (Hdead : ∀ (sm : Sim) (j : ℕ) (q : Particle), sm.particles[j]? = some q →
      q.is_alive = false → ∃ q2, ((drive sm).particles)[j]? = some q2 ∧
        q2.is_alive = false ∧ (q.is_dirty = false → q2.is_dirty = false))
    (s0 : RState) (i k : ℕ) (q : Particle)
    (hq : pAt drive s0 i k = some q) (ha : q.is_alive = false) (hd : q.is_dirty = false) :
    ∀ m, k ≤ m → ∃ r, pPost drive s0 i m = some r ∧ r.is_alive = false ∧ r.is_dirty = false := by
  intro m hm
  obtain ⟨r, hr, hra, hrd⟩ := deadclean_forever drive Hdead s0 i k q hq ha hd m hm
  exact deadclean_step drive Hdead s0 i m r hr hra hrd

theorem fires_unique (drive : Sim → Sim)
    (Hdead : ∀ (sm : Sim) (j : ℕ) (q : Particle), sm.particles[j]? = some q →
      q.is_alive = false → ∃ q2, ((drive sm).particles)[j]? = some q2 ∧
        q2.is_alive = false ∧ (q.is_dirty = false → q2.is_dirty = false))
    (s0 : RState) (i k m : ℕ)
    (hk : firesAt drive s0 i k) (hm : firesAt drive s0 i m) : k = m := by
  have key : ∀ a b, a < b → firesAt drive s0 i a → firesAt drive s0 i b → False := by
    rintro a b hab ⟨qa, hqa, haa, hda⟩ ⟨qb, hqb, hab2, hdb⟩
    have h1 : pAt drive s0 i (a + 1) = some (stepFlags qa) := by
      rw [pAt_succ, hqa]
      rfl
    have ha1 : (stepFlags qa).is_alive = false := by
      rw [stepFlags_alive]
      exact haa
    have hd1 : (stepFlags qa).is_dirty = false := stepFlags_dead_clean qa haa
    obtain ⟨r, hr, -, hrd⟩ :=
      deadclean_forever_post drive Hdead s0 i (a + 1) (stepFlags qa) h1 ha1 hd1 b (by omega)
    rw [hqb] at hr
    injection hr with he
    subst he
    rw [hdb] at hrd
    simp at hrd
  rcases Nat.lt_trichotomy k m with h | h | h
  · exact (key k m h hk hm).elim
  · exact h
  · exact (key m k h hm hk).elim

theorem fires_exists (drive : Sim → Sim)
    (Hdirty : ∀ (sm : Sim) (j : ℕ) (q q2 : Particle), sm.particles[j]? = some q →
      q.is_alive = true → ((drive sm).particles)[j]? = some q2 →
      q2.is_alive = false → q2.is_dirty = true)
    (Hlen : ∀ sm : Sim, ((drive sm).particles).length = sm.particles.length)
    (s0 : RState) (i : ℕ) (p0 : Particle)
    (h0 : pAt drive s0 i 0 = some p0) (halive : p0.is_alive = true)
    (hdies : ∃ N q, pPost drive s0 i N = some q ∧ q.is_alive = false) :
    ∃ k, firesAt drive s0 i k ∧
      ∀ m, m < k → ∀ q2, pPost drive s0 i m = some q2 → q2.is_alive = true := by
  classical
  have hP : ∃ N, ∃ q, pPost drive s0 i N = some q ∧ q.is_alive = false := hdies
  obtain ⟨q, hq, hqa⟩ := Nat.find_spec hP
  have hi : i < s0.sim.particles.length := by
    obtain ⟨hlt, -⟩ := List.getElem?_eq_some.mp h0
    exact hlt
  have hpre : ∃ r, pAt drive s0 i (Nat.find hP) = some r ∧ r.is_alive = true := by
    rcases Nat.eq_zero_or_pos (Nat.find hP) with h00 | hpos
    · rw [h00]
      exact ⟨p0, h0, halive⟩
    · obtain ⟨m, hm⟩ : ∃ m, Nat.find hP = m + 1 := ⟨Nat.find hP - 1, by omega⟩
      have hnot : ¬ ∃ q, pPost drive s0 i m = some q ∧ q.is_alive = false :=
        Nat.find_min hP (by omega)
      have hlen2 : i < ((drive (traj drive s0 m).sim).particles).length := by
        rw [Hlen, traj_len drive Hlen s0 m]
        exact hi
      obtain ⟨r2, hr2⟩ : ∃ r2, pPost drive s0 i m = some r2 :=
        ⟨_, List.getElem?_eq_getElem hlen2⟩
      have hr2a : r2.is_alive = true := by
        by_contra hc
        exact hnot ⟨r2, hr2, by revert hc; cases r2.is_alive <;> simp⟩
      refine ⟨r2, ?_, hr2a⟩
      rw [hm, pAt_succ, hr2]
      simp [stepFlags_of_alive r2 hr2a]
  obtain ⟨r, hr, hra⟩ := hpre
  refine ⟨Nat.find hP, ⟨q, hq, hqa,
    Hdirty (traj drive s0 (Nat.find hP)).sim i r q hr hra hq hqa⟩, ?_⟩
  intro m hm q2 hq2
  have hnot : ¬ ∃ q, pPost drive s0 i m = some q ∧ q.is_alive = false :=
    Nat.find_min hP hm
  by_contra hc
  exact hnot ⟨q2, hq2, by revert hc; cases q2.is_alive <;> simp⟩

theorem hasObj_traj_of_le (drive : Sim → Sim) (s0 : RState) (n : String) (k m : ℕ)
    (hm : k ≤ m) (h : hasObj (traj drive s0 k).host n) :
    hasObj (traj drive s0 m).host n := by
  induction m, hm using Nat.le_induction with
  | base => exact h
  | succ a ha ih =>
      rw [traj_succ]
      exact hasObj_loopIter drive _ n ih

theorem run_eq_traj (drive : Sim → Sim) :
    ∀ (fuel : ℕ) (s s1 : RState), run_simulation drive fuel s = some s1 →
      ∃ e, e ≤ fuel ∧ s1 = traj drive s e ∧
        anyDirty (traj drive s e) = false ∧
        ∀ k, k < e → anyDirty (traj drive s k) = true := by
  intro fuel
  induction fuel with
  | zero =>
      intro s s1 h
      by_cases hd : anyDirty s
      · simp [run_simulation, hd] at h
      · simp [run_simulation, hd] at h
        refine ⟨0, Nat.le_refl 0, h.symm, ?_, fun k hk => absurd hk (by omega)⟩
        show anyDirty s = false
        revert hd
        cases anyDirty s <;> simp
  | succ n ih =>
      intro s s1 h
      by_cases hd : anyDirty s
      · rw [run_simulation, if_pos hd] at h
        obtain ⟨e, he, hs1, hge, hgt⟩ := ih (loopIter drive s) s1 h
        refine ⟨e + 1, by omega, ?_, ?_, ?_⟩
        · rw [hs1]
          unfold traj
          rw [Function.iterate_succ_apply]
        · unfold traj at hge ⊢
          rw [Function.iterate_succ_apply]
          exact hge
        · intro k hk
          cases k with
          | zero => exact hd
          | succ k =>
              have := hgt k (by omega)
              unfold traj at this ⊢
              rw [Function.iterate_succ_apply]
              exact this
      · rw [run_simulation, if_neg hd] at h
        injection h with he
        refine ⟨0, Nat.zero_le _, he.symm, ?_, fun k hk => absurd hk (by omega)⟩
        show anyDirty s = false
        revert hd
        cases anyDirty s <;> simp

/-- C2: in any completed run of run_simulation, under the spec driver
contract (death is terminal, a finalized particle is never re-dirtied, death
asserts dirty, dirty is truthfully re-asserted for particles that stay alive
after a step, the particle collection is index-stable), every particle that
starts alive and dirty and eventually dies triggers the not-alive-and-dirty
finalization branch at exactly one iteration, and that iteration lies inside
the run: the run exits at the first all-clean state traj e, the guard held
at every earlier iteration, and the firing iteration k satisfies k < e; at
every later step the branch cannot fire again, the particle object is still
present, and processing the particle leaves any host that carries its object
completely unchanged. -/
theorem C2_exactly_once_finalization (drive : Sim → Sim) (s0 : RState) (i : ℕ)
    (Hdead : ∀ (sm : Sim) (j : ℕ) (q : Particle), sm.particles[j]? = some q →
      q.is_alive = false → ∃ q2, ((drive sm).particles)[j]? = some q2 ∧
        q2.is_alive = false ∧ (q.is_dirty = false → q2.is_dirty = false))
    (Hdirty : ∀ (sm : Sim) (j : ℕ) (q q2 : Particle), sm.particles[j]? = some q →
      q.is_alive = true → ((drive sm).particles)[j]? = some q2 →
      q2.is_alive = false → q2.is_dirty = true)
    (Hlen : ∀ sm : Sim, ((drive sm).particles).length = sm.particles.length)
    (HaliveDirty : ∀ (sm : Sim) (j : ℕ) (q : Particle),
      ((drive sm).particles)[j]? = some q → q.is_alive = true → q.is_dirty = true)
    (p0 : Particle) (h0 : pAt drive s0 i 0 = some p0)
    (halive : p0.is_alive = true) (hdirty0 : p0.is_dirty = true)
    (hdies : ∃ N q, pPost drive s0 i N = some q ∧ q.is_alive = false)
    (fuel : ℕ) (s1 : RState) (hrun : run_simulation drive fuel s0 = some s1) :
    ∃ e k, e ≤ fuel ∧ s1 = traj drive s0 e ∧
      (∀ m, m < e → anyDirty (traj drive s0 m) = true) ∧
      anyDirty (traj drive s0 e) = false ∧
      k < e ∧ firesAt drive s0 i k ∧
      (∀ m, firesAt drive s0 i m → m = k) ∧
      (∀ m, k < m →
        ¬ firesAt drive s0 i m ∧
        hasObj (traj drive s0 m).host (particleName i) ∧
        ∀ q, pPost drive s0 i m = some q →
          q.is_alive = false ∧ q.is_dirty = false ∧
          ∀ h : Host, (lookupObject h (particleName i)).isSome = true →
            process_particle q i h = (q, h)) := by
  obtain ⟨k0, hfire, hmin⟩ := fires_exists drive Hdirty Hlen s0 i p0 h0 halive hdies
  have hi : i < s0.sim.particles.length := by
    obtain ⟨hlt, -⟩ := List.getElem?_eq_some.mp h0
    exact hlt
  have hprefix : ∀ k, k ≤ k0 →
      ∃ r, pAt drive s0 i k = some r ∧ r.is_alive = true ∧ r.is_dirty = true := by
    intro k
    induction k with
    | zero =>
        intro _
        exact ⟨p0, h0, halive, hdirty0⟩
    | succ m ih =>
        intro hk
        have hlen2 : i < ((drive (traj drive s0 m).sim).particles).length := by
          rw [Hlen, traj_len drive Hlen s0 m]
          exact hi
        obtain ⟨r2, hr2⟩ : ∃ r2, pPost drive s0 i m = some r2 :=
          ⟨_, List.getElem?_eq_getElem hlen2⟩
        have hr2a : r2.is_alive = true := hmin m (by omega) r2 hr2
        have hr2d : r2.is_dirty = true :=
          HaliveDirty (traj drive s0 m).sim i r2 hr2 hr2a
        refine ⟨r2, ?_, hr2a, hr2d⟩
        rw [pAt_succ, hr2]
        simp [stepFlags_of_alive r2 hr2a]
  obtain ⟨e, hef, hs1, hge, hgt⟩ := run_eq_traj drive fuel s0 s1 hrun
  have hek : k0 < e := by
    by_contra hc
    push_neg at hc
    obtain ⟨r, hr, -, hrd⟩ := hprefix e hc
    have hmem : r ∈ (traj drive s0 e).sim.particles := List.getElem?_mem hr
    have hdirtye : anyDirty (traj drive s0 e) = true := by
      rw [anyDirty, List.any_eq_true]
      exact ⟨r, hmem, hrd⟩
    rw [hdirtye] at hge
    simp at hge
  refine ⟨e, k0, hef, hs1, hgt, hge, hek, hfire,
    fun m hm => fires_unique drive Hdead s0 i m k0 hm hfire, ?_⟩
  intro m hkm
  obtain ⟨q, hq, hqa, hqd⟩ := hfire
  have h1 : pAt drive s0 i (k0 + 1) = some (stepFlags q) := by
    rw [pAt_succ, hq]
    rfl
  have ha1 : (stepFlags q).is_alive = false := by
    rw [stepFlags_alive]
    exact hqa
  have hd1 : (stepFlags q).is_dirty = false := stepFlags_dead_clean q hqa
  obtain ⟨r, hrm, hra, hrd⟩ :=
    deadclean_forever_post drive Hdead s0 i (k0 + 1) (stepFlags q) h1 ha1 hd1 m (by omega)
  refine ⟨?_, ?_, ?_⟩
  · rintro ⟨r2, hr2, -, hr2d⟩
    rw [hrm] at hr2
    injection hr2 with he
    subst he
    rw [hr2d] at hrd
    simp at hrd
  · have hobj1 : hasObj (traj drive s0 (k0 + 1)).host (particleName i) := by
      rw [traj_succ]
      apply hasObj_loopIter_idx
      obtain ⟨hlt, -⟩ := List.getElem?_eq_some.mp hq
      exact hlt
    exact hasObj_traj_of_le drive s0 (particleName i) (k0 + 1) m (by omega) hobj1
  · intro q2 hq2
    rw [hrm] at hq2
    injection hq2 with he
    subst he
    exact ⟨hra, hrd, fun h hh => process_finalized_noop r i h hra hrd hh⟩

theorem run_simulation_some_clean (drive : Sim → Sim) :
    ∀ (fuel : ℕ) (s s1 : RState), run_simulation drive fuel s = some s1 →
      anyDirty s1 = false := by
  intro fuel
  induction fuel with
  | zero =>
      intro s s1 h
      by_cases hd : anyDirty s
      · simp [run_simulation, hd] at h
      · simp [run_simulation, hd] at h
        rw [← h]
        exact Bool.not_eq_true _ ▸ (by revert hd; cases anyDirty s <;> simp)
  | succ n ih =>
      intro s s1 h
      by_cases hd : anyDirty s
      · rw [run_simulation] at h
        rw [if_pos hd] at h
        exact ih (loopIter drive s) s1 h
      · rw [run_simulation] at h
        rw [if_neg hd] at h
        injection h with he
        subst he
        revert hd
        cases anyDirty s <;> simp

theorem run_simulation_clean_id (drive : Sim → Sim) (fuel : ℕ) (s : RState)
    (h : anyDirty s = false) : run_simulation drive fuel s = some s := by
  cases fuel <;> simp [run_simulation, h]

theorem run_some_of_clean (drive : Sim → Sim) :
    ∀ (n : ℕ) (s : RState), anyDirty ((loopIter drive)^[n] s) = false →
      ∃ s1, run_simulation drive n s = some s1 := by
  intro n
  induction n with
  | zero =>
      intro s h
      simp at h
      exact ⟨s, by simp [run_simulation, h]⟩
  | succ n ih =>
      intro s h
      by_cases hd : anyDirty s
      · have h2 : anyDirty ((loopIter drive)^[n] (loopIter drive s)) = false := by
          rw [← Function.iterate_succ_apply]
          exact h
        obtain ⟨s1, h1⟩ := ih (loopIter drive s) h2
        refine ⟨s1, ?_⟩
        rw [run_simulation, if_pos hd]
        exact h1
      · exact ⟨s, by simp [run_simulation, hd]⟩

theorem exists_uniform (len : ℕ) (P : ℕ → ℕ → Prop)
    (hmono : ∀ j k m, k ≤ m → P j k → P j m)
    (h : ∀ j, j < len → ∃ N, P j N) :
    ∃ M, ∀ j, j < len → P j M := by
  induction len with
  | zero => exact ⟨0, fun j hj => absurd hj (by omega)⟩
  | succ len ih =>
      obtain ⟨M1, hM1⟩ := ih (fun j hj => h j (by omega))
      obtain ⟨N, hN⟩ := h len (by omega)
      refine ⟨max M1 N, fun j hj => ?_⟩
      rcases Nat.lt_succ_iff_lt_or_eq.mp hj with hlt | heq
      · exact hmono j M1 _ (le_max_left _ _) (hM1 j hlt)
      · subst heq
        exact hmono j N _ (le_max_right _ _) hN

/-- C9: the run loop returns only states in which no particle is dirty and
exits immediately on such states, and under the spec driver contract with
every particle eventually dead the loop terminates within a finite fuel. -/
theorem C9_termination (drive : Sim → Sim) (s0 : RState)
    (Hdead : ∀ (sm : Sim) (j : ℕ) (q : Particle), sm.particles[j]? = some q →
      q.is_alive = false → ∃ q2, ((drive sm).particles)[j]? = some q2 ∧
        q2.is_alive = false ∧ (q.is_dirty = false → q2.is_dirty = false))
    (Hlen : ∀ sm : Sim, ((drive sm).particles).length = sm.particles.length)
    (hAllDie : ∀ j, j < s0.sim.particles.length →
      ∃ N q, pPost drive s0 j N = some q ∧ q.is_alive = false) :
    (∀ (fuel : ℕ) (s s1 : RState), run_simulation drive fuel s = some s1 →
      anyDirty s1 = false) ∧
    (∀ (fuel : ℕ) (s : RState), anyDirty s = false →
      run_simulation drive fuel s = some s) ∧
    (∃ n s1, run_simulation drive n s0 = some s1 ∧ anyDirty s1 = false) := by
  refine ⟨run_simulation_some_clean drive, run_simulation_clean_id drive, ?_⟩
  have hM : ∃ M, ∀ j, j < s0.sim.particles.length →
      ∃ r, pAt drive s0 j M = some r ∧ r.is_alive = false ∧ r.is_dirty = false := by
    apply exists_uniform
    · rintro j k m hkm ⟨r, hr, hra, hrd⟩
      exact deadclean_forever drive Hdead s0 j k r hr hra hrd m hkm
    · intro j hj
      obtain ⟨N, q, hq, hqa⟩ := hAllDie j hj
      refine ⟨N + 1, stepFlags q, ?_, by rw [stepFlags_alive]; exact hqa,
        stepFlags_dead_clean q hqa⟩
      rw [pAt_succ, hq]
      rfl
  obtain ⟨M, hM⟩ := hM
  have hclean : anyDirty (traj drive s0 M) = false := by
    rw [anyDirty, List.any_eq_false]
    intro p hp
    obtain ⟨j, hj⟩ := List.mem_iff_getElem?.mp hp
    have hjlen : j < s0.sim.particles.length := by
      obtain ⟨hlt, -⟩ := List.getElem?_eq_some.mp hj
      rw [traj_len drive Hlen s0 M] at hlt
      exact hlt
    obtain ⟨r, hr, -, hrd⟩ := hM j hjlen
    have hr2 : pAt drive s0 j M = some p := hj
    rw [hr2] at hr
    injection hr with he
    rw [he, hrd]
    simp
  obtain ⟨s1, hs1⟩ := run_some_of_clean drive M s0 hclean
  exact ⟨M, s1, hs1, run_simulation_some_clean drive M s0 s1 hs1⟩

/-- C2 witness: with the one-particle killing driver the run completes in
one iteration and the finalization branch fires at iteration 0 inside it. -/
theorem C2_exactly_once_finalization_witness :
    pAt witDrive s0Wit 0 0 = some pWit ∧
    pWit.is_alive = true ∧ pWit.is_dirty = true ∧
    (∃ s1, run_simulation witDrive 1 s0Wit = some s1 ∧
      ∃ e k, e ≤ 1 ∧ s1 = traj witDrive s0Wit e ∧
        (∀ m, m < e → anyDirty (traj witDrive s0Wit m) = true) ∧
        anyDirty (traj witDrive s0Wit e) = false ∧
        k < e ∧ firesAt witDrive s0Wit 0 k ∧
        (∀ m, firesAt witDrive s0Wit 0 m → m = k) ∧
        (∀ m, k < m →
          ¬ firesAt witDrive s0Wit 0 m ∧
          hasObj (traj witDrive s0Wit m).host (particleName 0) ∧
          ∀ q, pPost witDrive s0Wit 0 m = some q →
            q.is_alive = false ∧ q.is_dirty = false ∧
            ∀ h : Host, (lookupObject h (particleName 0)).isSome = true →
              process_particle q 0 h = (q, h))) := by
  have hclean : anyDirty (traj witDrive s0Wit 1) = false := by
    show anyDirty (loopIter witDrive s0Wit) = false
    rw [anyDirty, loopIter_particles]
    rfl
  obtain ⟨s1, hs1⟩ := run_some_of_clean witDrive 1 s0Wit hclean
  refine ⟨rfl, rfl, rfl, s1, hs1, ?_⟩
  apply C2_exactly_once_finalization witDrive s0Wit 0
  · intro sm j q hq ha
    refine ⟨q, ?_, ha, fun h => h⟩
    simp [witDrive, List.getElem?_map, hq, ha]
  · intro sm j q q2 hq hal hq2 hdead2
    simp only [witDrive, List.getElem?_map, hq, Option.map_some', hal, if_true] at hq2
    injection hq2 with he
    rw [← he]
  · intro sm
    simp [witDrive]
  · intro sm j q hq ha
    simp only [witDrive] at hq
    rw [List.getElem?_map] at hq
    cases hp : sm.particles[j]? with
    | none =>
        rw [hp] at hq
        simp at hq
    | some p =>
        rw [hp] at hq
        simp only [Option.map_some'] at hq
        injection hq with he
        by_cases hpa : p.is_alive
        · rw [← he]
          simp [hpa]
        · rw [← he] at ha
          simp only [hpa, if_false] at ha
          exact absurd ha hpa
  · exact rfl
  · exact rfl
  · exact rfl
  · exact ⟨0, ⟨(0, 0, 0), 1, 1, false, true⟩, rfl, rfl⟩
  · exact hs1

/-- C9 witness: the one-particle killing driver terminates the run. -/
theorem C9_termination_witness :
    (∀ j, j < s0Wit.sim.particles.length →
      ∃ N q, pPost witDrive s0Wit j N = some q ∧ q.is_alive = false) ∧
    (∃ n s1, run_simulation witDrive n s0Wit = some s1 ∧ anyDirty s1 = false) := by
  have hAllDieW : ∀ j, j < s0Wit.sim.particles.length →
      ∃ N q, pPost witDrive s0Wit j N = some q ∧ q.is_alive = false := by
    intro j hj
    have hj0 : j = 0 := by
      simp [s0Wit] at hj
      exact hj
    subst hj0
    exact ⟨0, ⟨(0, 0, 0), 1, 1, false, true⟩, rfl, rfl⟩
  refine ⟨hAllDieW, (C9_termination witDrive s0Wit ?_ ?_ hAllDieW).2.2⟩
  · intro sm j q hq ha
    refine ⟨q, ?_, ha, fun h => h⟩
    simp [witDrive, List.getElem?_map, hq, ha]
  · intro sm
    simp [witDrive]
